import Mathlib

/-!
# SentraVault — verification of the encrypted-vault core

Shallow embedding of the SentraVault core (`svaultFormat` + `fastCrypto` +
the CryptoJS codec of `secureStorage`).  JavaScript strings are modelled as
`List Char`, byte arrays as `List Nat` with every byte `< 256`, and the
file system as a partial map from paths to file contents.  JSON
serialization of the vault index is modelled abstractly (`FileData.indexFile`
stands for the `JSON.stringify` text of an index; `JSON.parse` succeeds
exactly on such contents).  External cryptographic digests (SHA-256 based
`deriveKey`, CryptoJS AES/PBKDF2) are parameters of the model; everything
else is translated from the source.
-/

namespace SentraVault

/-- JavaScript strings are modelled as lists of characters. -/
abbrev JStr := List Char

/-- Coerce a Lean string literal into the model's string type. -/
def str (s : String) : JStr := s.data

/-! ## Hex encoding (fastCrypto `bytesToHex` / `hexToBytes`) -/

/-- The hex digit characters produced by JavaScript `Number.toString(16)`. -/
def hexDigits : JStr := str "0123456789abcdef"

/-- Digit character for a value `< 16` (as produced by `toString(16)`). -/
def hexDigitChar (n : Nat) : Char := hexDigits.getD n '0'

/-- `b.toString(16).padStart(2, '0')` for a byte `b < 256`. -/
def byteToHexPair (b : Nat) : JStr := [hexDigitChar (b / 16), hexDigitChar (b % 16)]

/-- fastCrypto `bytesToHex`: map each byte to its zero-padded hex pair. -/
def bytesToHex : List Nat → JStr
  | [] => []
  | b :: bs => byteToHexPair b ++ bytesToHex bs

/-- Value of one hex digit; `none` models a character `parseInt` rejects.
JavaScript `parseInt(·, 16)` accepts both lower- and upper-case digits. -/
def hexCharVal (c : Char) : Option Nat :=
  if 48 ≤ c.toNat ∧ c.toNat ≤ 57 then some (c.toNat - 48)
  else if 97 ≤ c.toNat ∧ c.toNat ≤ 102 then some (c.toNat - 87)
  else if 65 ≤ c.toNat ∧ c.toNat ≤ 70 then some (c.toNat - 55)
  else none

/-- `parseInt(twoChars, 16)` followed by the implicit `Uint8Array` store:
an invalid first digit yields `NaN`, stored as `0`; a valid first digit
with an invalid second keeps only the first digit's value (`parseInt`
parses the longest valid numeric prefix). -/
def parseHexPair (c1 c2 : Char) : Nat :=
  match hexCharVal c1 with
  | none => 0
  | some a =>
    match hexCharVal c2 with
    | none => a
    | some b => 16 * a + b

/-- fastCrypto `hexToBytes`.  An odd-length input never occurs at any call
site (JavaScript would throw constructing a `Uint8Array` of fractional
length), so the dangling-character case is mapped to the empty tail. -/
def hexToBytes : JStr → List Nat
  | [] => []
  | [_] => []
  | c1 :: c2 :: rest => parseHexPair c1 c2 :: hexToBytes rest

/-! ## Base64 (`btoa` / `atob`, used by `bytesToBase64` / `base64ToBytes`)

JavaScript bit operations on byte values are written in their arithmetic
form (`x >>> 2` = `x / 4`, `x & 3` = `x % 4`, and `|` of disjoint bit
ranges = `+`), which agrees with the source for all byte inputs. -/

/-- The standard base64 alphabet. -/
def b64Alphabet : JStr :=
  str "ABCDEFGHIJKLMNOPQRSTUVWXYZabcdefghijklmnopqrstuvwxyz0123456789+/"

/-- Alphabet character for a 6-bit value. -/
def b64Char (n : Nat) : Char := b64Alphabet.getD n 'A'

/-- Value of one base64 character; `none` models a character `atob` rejects. -/
def b64CharVal (c : Char) : Option Nat :=
  if 65 ≤ c.toNat ∧ c.toNat ≤ 90 then some (c.toNat - 65)
  else if 97 ≤ c.toNat ∧ c.toNat ≤ 122 then some (c.toNat - 71)
  else if 48 ≤ c.toNat ∧ c.toNat ≤ 57 then some (c.toNat + 4)
  else if c = '+' then some 62
  else if c = '/' then some 63
  else none

/-- `btoa` on a byte sequence (`bytesToBase64`): RFC 4648 with padding. -/
def bytesToBase64 : List Nat → JStr
  | [] => []
  | [a] => [b64Char (a / 4), b64Char (a % 4 * 16), '=', '=']
  | [a, b] => [b64Char (a / 4), b64Char (a % 4 * 16 + b / 16), b64Char (b % 16 * 4), '=']
  | a :: b :: c :: rest =>
    b64Char (a / 4) :: b64Char (a % 4 * 16 + b / 16) :: b64Char (b % 16 * 4 + c / 64) ::
      b64Char (c % 64) :: bytesToBase64 rest

/-- `atob` (`base64ToBytes`); `none` models the `DOMException` throw.
Padding is required (every call site passes padded `btoa` output; the
forgiving-base64 unpadded-tail and whitespace cases never occur). -/
def base64ToBytes : JStr → Option (List Nat)
  | [] => some []
  | c1 :: c2 :: c3 :: c4 :: rest =>
    match b64CharVal c1, b64CharVal c2 with
    | some a, some b =>
      match b64CharVal c3, b64CharVal c4 with
      | some c, some d =>
        (base64ToBytes rest).map
          (fun t => (a * 4 + b / 16) :: (b % 16 * 16 + c / 4) :: (c % 4 * 64 + d) :: t)
      | none, none =>
        if c3 = '=' then if c4 = '=' then if rest = [] then
          some [a * 4 + b / 16] else none else none else none
      | some c, none =>
        if c4 = '=' then if rest = [] then
          some [a * 4 + b / 16, b % 16 * 16 + c / 4] else none else none
      | none, some _ => none
    | _, _ => none
  | _ => none

/-! ## fastCrypto XOR codec

`xorEncrypt` XORs each data byte with the key byte at `i % keyBytes.length`.
`List.getD` returns `0` for the empty key, matching JavaScript where
`keyBytes[i % 0]` is `undefined` and `x ^ undefined` coerces to `x ^ 0`. -/

/-- The keystream loop of `xorEncrypt`, with the running byte index made
explicit: `xorKey ks i d` XORs `d` against `ks` starting at index `i`. -/
def xorKey (ks : List Nat) : Nat → List Nat → List Nat
  | _, [] => []
  | i, b :: rest => (b ^^^ ks.getD (i % ks.length) 0) :: xorKey ks (i + 1) rest

/-- fastCrypto `xorEncrypt(data, keyHex)`. -/
def xorEncrypt (data : List Nat) (keyHex : JStr) : List Nat :=
  xorKey (hexToBytes keyHex) 0 data

/-- fastCrypto `xorDecrypt` — literally `xorEncrypt` (XOR is symmetric). -/
def xorDecrypt (data : List Nat) (keyHex : JStr) : List Nat :=
  xorEncrypt data keyHex

/-- Byte `n` of the keystream induced by a hex key (the value
`keyBytes[n % keyBytes.length]` that `xorEncrypt` XORs into data byte `n`). -/
def keyStreamByte (keyHex : JStr) (n : Nat) : Nat :=
  (hexToBytes keyHex).getD (n % (hexToBytes keyHex).length) 0

/-! ## fastCrypto string / data / file codecs

Plaintext strings are modelled at the byte level (their `TextEncoder`
UTF-8 image); `stringToBytes` / `bytesToString` are the identity at this
level.  The random IV drawn by `generateIV` is passed explicitly. -/

/-- The combined key computed identically inside `encryptString`,
`decryptString`, `encryptData` and `decryptData`:
`combinedKey[i] = keyBytes[i] ^ ivBytes[i % ivBytes.length]`. -/
def combinedKey (keyHex iv : JStr) : List Nat :=
  xorKey (hexToBytes iv) 0 (hexToBytes keyHex)

/-- fastCrypto `encryptString` (the `encrypted` hex component; the IV is
the explicit `iv` argument).  The plaintext is its UTF-8 byte sequence. -/
def encryptString (plainBytes : List Nat) (keyHex iv : JStr) : JStr :=
  bytesToHex (xorEncrypt plainBytes (bytesToHex (combinedKey keyHex iv)))

/-- fastCrypto `decryptString`, returning the decrypted UTF-8 bytes.
The source function is total: XOR and the hex conversions never throw. -/
def decryptString (encryptedHex keyHex iv : JStr) : List Nat :=
  xorDecrypt (hexToBytes encryptedHex) (bytesToHex (combinedKey keyHex iv))

/-- fastCrypto `encryptData` (base64 in, base64 out); `none` models the
`atob` throw on invalid base64 input. -/
def encryptData (base64Data keyHex iv : JStr) : Option JStr :=
  (base64ToBytes base64Data).map
    (fun data => bytesToBase64 (xorEncrypt data (bytesToHex (combinedKey keyHex iv))))

/-- fastCrypto `decryptData` (base64 in, base64 out). -/
def decryptData (encryptedBase64 keyHex iv : JStr) : Option JStr :=
  (base64ToBytes encryptedBase64).map
    (fun data => bytesToBase64 (xorDecrypt data (bytesToHex (combinedKey keyHex iv))))

/-- fastCrypto `encryptFile`, at the level of file contents: the plaintext
file is read as base64, encrypted, and the stored text is `iv + ':' +
encryptedBase64`. -/
def encryptFileContent (plainBase64 keyHex iv : JStr) : Option JStr :=
  (encryptData plainBase64 keyHex iv).map (fun enc => iv ++ str ":" ++ enc)

/-- `indexOf(':')` split used by `decryptFile`: everything before the
first colon and everything after it; `none` when no colon exists. -/
def splitFirstColon : JStr → Option (JStr × JStr)
  | [] => none
  | c :: rest =>
    if c = ':' then some ([], rest)
    else (splitFirstColon rest).map (fun p => (c :: p.1, p.2))

/-- fastCrypto `decryptFile` at the level of file contents, returning the
decrypted base64; `none` models the `Invalid encrypted file format` and
`atob` throws. -/
def decryptFileContent (content keyHex : JStr) : Option JStr :=
  match splitFirstColon content with
  | none => none
  | some (iv, encryptedBase64) => decryptData encryptedBase64 keyHex iv

/-! ## Text helpers shared by the vault operations -/

/-- `TextEncoder.encode` on the ASCII-range strings (hex keys) that reach
it in the vault code: each character becomes its code point. -/
def asciiBytes (s : JStr) : List Nat := s.map Char.toNat

/-- `TextDecoder.decode` as used on unwrap results.  The real decoder maps
invalid UTF-8 to replacement characters; this model decodes byte-per-char
(latin-1).  Both agree on the ASCII strings produced with the correct
password, and both return a non-empty string exactly on non-empty input,
which is all the vault code observes. -/
def bytesToStringM (bs : List Nat) : JStr := bs.map Char.ofNat

/-- `String.prototype.split(':')`. -/
def splitColons : JStr → List JStr
  | [] => [[]]
  | c :: rest =>
    if c = ':' then [] :: splitColons rest
    else
      match splitColons rest with
      | [] => [[c]]
      | h :: t => (c :: h) :: t

/-- `const [envIv, envData] = envelope.split(':')` — the first two parts
(envelopes are always written as `iv:cipherhex`). -/
def splitEnvelope (s : JStr) : JStr × JStr :=
  ((splitColons s).getD 0 [], (splitColons s).getD 1 [])

/-- `isPrefixList pfx s` models JavaScript `s.startsWith(pfx)`. -/
def isPrefixList : JStr → JStr → Bool
  | [], _ => true
  | _ :: _, [] => false
  | a :: as, b :: bs => a == b && isPrefixList as bs

/-! ## Vault data model (`svaultFormat`) -/

inductive VaultType where
  | real
  | decoy
deriving DecidableEq

structure VaultItem where
  id : JStr
  type : JStr
  originalName : JStr
  mimeType : JStr
  fileExtension : Option JStr
  duration : Option Nat
  createdAt : Nat
  thumbnailBase64 : Option JStr
  encryptedFileName : JStr
  size : Option Nat
deriving DecidableEq

structure VaultIndex where
  version : Nat
  salt : JStr
  keyEnvelope : JStr
  items : List VaultItem
deriving DecidableEq

structure VaultHandle where
  type : VaultType
  masterKey : JStr
  index : VaultIndex
  indexPath : JStr
  filesDir : JStr
deriving DecidableEq

/-- On-disk file contents.  `indexFile idx` stands for the
`JSON.stringify` text of `idx` (`JSON.parse` succeeds exactly on such
contents); `text` is raw written text (encrypted item files); `garbage`
is unparseable content. -/
inductive FileData where
  | indexFile (idx : VaultIndex)
  | text (s : JStr)
  | garbage
deriving DecidableEq

/-- The file system: a partial map from paths to contents. -/
def FS := JStr → Option FileData

def FS.write (fs : FS) (p : JStr) (d : FileData) : FS :=
  fun q => if q = p then some d else fs q

def FS.remove (fs : FS) (p : JStr) : FS :=
  fun q => if q = p then none else fs q

/-- `FileSystem.documentDirectory + 'vaults/'` (the document directory is
an opaque device prefix, modelled as a constant). -/
def VAULTS_DIR : JStr := str "documents/vaults/"

/-- `FileSystem.documentDirectory + 'session/'`. -/
def SESSION_DIR : JStr := str "documents/session/"

def vaultTypeName : VaultType → JStr
  | .real => str "real"
  | .decoy => str "decoy"

/-- `getVaultPath`. -/
def getVaultPath (t : VaultType) : JStr := VAULTS_DIR ++ vaultTypeName t ++ str ".svault"

/-- `getVaultFilesDir`. -/
def getVaultFilesDir (t : VaultType) : JStr := VAULTS_DIR ++ vaultTypeName t ++ str "_files/"

/-- fastCrypto `deriveKey(password, secretKey, salt)` iterates an external
SHA-256 digest; it is a parameter of the model (a deterministic function
of its three inputs). -/
def DeriveKey := JStr → JStr → JStr → JStr

/-- The entropy and clock inputs consumed by a vault operation: the fresh
salt / Master Key / IV (`generateSalt`, `getRandomBytesAsync`,
`generateIV`), the unique temp-file suffix of `saveIndex`, and the
`Date.now()` suffix used for `.corrupted` archives. -/
structure Entropy where
  salt : JStr
  masterKey : JStr
  iv : JStr
  tmp : JStr
  now : JStr

/-! ## `saveIndex` (atomic write + backup) -/

/-- The final file-system state of one `saveIndex` run:
write the index JSON to a unique temp file, copy the primary to `.bak`
if the primary exists, delete the primary, move the temp file onto it. -/
def saveIndexRun (fs : FS) (indexPath : JStr) (idx : VaultIndex) (tmp : JStr) : FS :=
  let tempPath := indexPath ++ str ".tmp." ++ tmp
  let backupPath := indexPath ++ str ".bak"
  let fs1 := fs.write tempPath (.indexFile idx)
  let info := fs1 indexPath
  let fs2 := match info with
    | some c => fs1.write backupPath c
    | none => fs1
  let fs3 := if info.isSome then fs2.remove indexPath else fs2
  match fs3 tempPath with
  | some c => (fs3.remove tempPath).write indexPath c
  | none => fs3

/-- Every on-disk state a crash can leave behind during `saveIndex`,
in execution order: initial, mid-temp-write (half-written temp file),
after the temp write, mid-backup-copy (half-written `.bak`), after the
backup copy, after deleting the primary, and after the final move
(file moves and deletes are atomic at the file-system level). -/
def saveSteps (fs : FS) (indexPath : JStr) (idx : VaultIndex) (tmp : JStr) : List FS :=
  let tempPath := indexPath ++ str ".tmp." ++ tmp
  let backupPath := indexPath ++ str ".bak"
  let fsHalfTemp := fs.write tempPath .garbage
  let fs1 := fs.write tempPath (.indexFile idx)
  let info := fs1 indexPath
  let fsHalfBak := if info.isSome then fs1.write backupPath .garbage else fs1
  let fs2 := match info with
    | some c => fs1.write backupPath c
    | none => fs1
  let fs3 := if info.isSome then fs2.remove indexPath else fs2
  [fs, fsHalfTemp, fs1, fsHalfBak, fs2, fs3, saveIndexRun fs indexPath idx tmp]

/-- `saveVault`. -/
def saveVault (fs : FS) (handle : VaultHandle) (tmp : JStr) : FS :=
  saveIndexRun fs handle.indexPath handle.index tmp

/-! ## `openVault` -/

/-- The `CREATE NEW VAULT` branch of `openVault`: fresh salt, fresh
Master Key, wrap it under the derived KEK, persist an empty index. -/
def createVault (dk : DeriveKey) (fs : FS) (t : VaultType) (password secretKey : JStr)
    (e : Entropy) : Option VaultHandle × FS :=
  let indexPath := getVaultPath t
  let kek := dk password secretKey e.salt
  let keyEnvelope := encryptString (asciiBytes e.masterKey) kek e.iv
  let storedEnvelope := e.iv ++ str ":" ++ keyEnvelope
  let index : VaultIndex := ⟨2, e.salt, storedEnvelope, []⟩
  let fs' := saveIndexRun fs indexPath index e.tmp
  (some ⟨t, e.masterKey, index, indexPath, getVaultFilesDir t⟩, fs')

/-- `openVault`.  Directory creation and session clearing touch no vault
path and are omitted.  The `catch` around `decryptString` is preserved
structurally but unreachable: the XOR-based `decryptString` is total, so
the wrong-password check reduces to the `if (!masterKey)` falsiness test.
The `nuclear option` recursive call deterministically reaches the
create branch (the primary was just moved away), so it is inlined as
`createVault`. -/
def openVault (dk : DeriveKey) (fs : FS) (t : VaultType) (password secretKey : JStr)
    (e : Entropy) : Option VaultHandle × FS :=
  let indexPath := getVaultPath t
  let filesDir := getVaultFilesDir t
  match fs indexPath with
  | none => createVault dk fs t password secretKey e
  | some (.indexFile index) =>
    let kek := dk password secretKey index.salt
    let envIv := (splitEnvelope index.keyEnvelope).1
    let envData := (splitEnvelope index.keyEnvelope).2
    let masterKey := decryptString envData kek envIv
    if masterKey = [] then (none, fs)
    else (some ⟨t, bytesToStringM masterKey, index, indexPath, filesDir⟩, fs)
  | some other =>
    -- JSON.parse threw: attempt recovery from the `.bak` copy
    let backupPath := indexPath ++ str ".bak"
    let nuked : FS :=
      let fs1 := (fs.remove indexPath).write (indexPath ++ str ".corrupted." ++ e.now) other
      match fs1 backupPath with
      | some b => (fs1.remove backupPath).write (backupPath ++ str ".corrupted." ++ e.now) b
      | none => fs1
    match fs backupPath with
    | some (.indexFile bidx) =>
      let kek := dk password secretKey bidx.salt
      let envIv := (splitEnvelope bidx.keyEnvelope).1
      let envData := (splitEnvelope bidx.keyEnvelope).2
      let mk := decryptString envData kek envIv
      if mk = [] then createVault dk nuked t password secretKey e
      else
        (some ⟨t, bytesToStringM mk, bidx, indexPath, filesDir⟩,
          fs.write indexPath (.indexFile bidx))
    | _ => createVault dk nuked t password secretKey e

/-! ## `changeVaultPassword` -/

/-- `changeVaultPassword`: new salt, new KEK, re-wrap the existing Master
Key, persist via `saveVault`. -/
def changeVaultPassword (dk : DeriveKey) (fs : FS) (handle : VaultHandle)
    (newPassword secretKey : JStr) (e : Entropy) : Bool × VaultHandle × FS :=
  let newSalt := e.salt
  let newKek := dk newPassword secretKey newSalt
  let newEnvelope := encryptString (asciiBytes handle.masterKey) newKek e.iv
  let storedEnvelope := e.iv ++ str ":" ++ newEnvelope
  let index' := { handle.index with salt := newSalt, keyEnvelope := storedEnvelope }
  let handle' := { handle with index := index' }
  (true, handle', saveVault fs handle' e.tmp)

/-! ## `importFromArchive` -/

/-- An `.svault` export archive.  The ZIP's base64 file-content layer is
the identity at this level: each `files/` entry holds the stored text of
the exported encrypted file. -/
structure Archive where
  salt : JStr
  keyEnvelope : JStr
  items : List VaultItem
  files : List (JStr × JStr)

/-- `zip.folder('files').file(name)` lookup. -/
def lookupFile (files : List (JStr × JStr)) (n : JStr) : Option JStr :=
  (files.find? (fun p => p.1 == n)).map (fun p => p.2)

/-- The per-item import loop of `importFromArchive`.  `i` is the position
in the archive's item list, used to index the per-item entropy (`ivs` for
re-encryption, `newIds` for collision renames).  `items` is the live
index's item list, mutated by `unshift` as the source does; a failing
item (missing file, decrypt/encrypt throw) is skipped, leaving its temp
files behind exactly where the source's `catch` would. -/
def importItems (filesDir masterKey backupKey : JStr) (files : List (JStr × JStr))
    (ivs newIds : Nat → JStr) :
    Nat → List VaultItem → List VaultItem → FS → Nat → List VaultItem × FS × Nat
  | _, [], items, fs, count => (items, fs, count)
  | i, item :: rest, items, fs, count =>
    match lookupFile files item.encryptedFileName with
    | none => importItems filesDir masterKey backupKey files ivs newIds
        (i + 1) rest items fs count
    | some stored =>
      let tempEncPath := SESSION_DIR ++ str "temp_imp_" ++ item.id ++ str ".enc"
      let tempDecPath := SESSION_DIR ++ str "temp_imp_" ++ item.id ++ str ".dec"
      let finalEncPath := filesDir ++ item.id ++ str ".enc"
      let fs1 := fs.write tempEncPath (.text stored)
      match decryptFileContent stored backupKey with
      | none => importItems filesDir masterKey backupKey files ivs newIds
          (i + 1) rest items fs1 count
      | some plainB64 =>
        let fs2 := fs1.write tempDecPath (.text plainB64)
        match encryptFileContent plainB64 masterKey (ivs i) with
        | none => importItems filesDir masterKey backupKey files ivs newIds
            (i + 1) rest items fs2 count
        | some encContent =>
          let fs3 := fs2.write finalEncPath (.text encContent)
          if items.all (fun j => !(j.id == item.id)) then
            let fs4 := (fs3.remove tempEncPath).remove tempDecPath
            importItems filesDir masterKey backupKey files ivs newIds
              (i + 1) rest (item :: items) fs4 (count + 1)
          else
            let newId := newIds i
            let item' := { item with id := newId, encryptedFileName := newId ++ str ".enc" }
            let fs4 := match fs3 finalEncPath with
              | some c => (fs3.remove finalEncPath).write (filesDir ++ item'.encryptedFileName) c
              | none => fs3
            let fs5 := (fs4.remove tempEncPath).remove tempDecPath
            importItems filesDir masterKey backupKey files ivs newIds
              (i + 1) rest (item' :: items) fs5 (count + 1)

/-- `importFromArchive`.  The archive's Master Key is unwrapped with the
KEK derived from the supplied password; since the XOR `decryptString` is
total, the reachable failure is the `if (!backupMasterKey)` falsiness
check (`Decryption Failed`). -/
def importFromArchive (dk : DeriveKey) (fs : FS) (handle : VaultHandle) (archive : Archive)
    (inputPassword secretKey : JStr) (ivs newIds : Nat → JStr) (tmp : JStr) :
    Except JStr (Nat × VaultHandle × FS) :=
  let kek := dk inputPassword secretKey archive.salt
  let envIv := (splitEnvelope archive.keyEnvelope).1
  let envData := (splitEnvelope archive.keyEnvelope).2
  let backupMasterKeyBytes := decryptString envData kek envIv
  if backupMasterKeyBytes = [] then .error (str "Decryption Failed")
  else
    let backupMasterKey := bytesToStringM backupMasterKeyBytes
    let r := importItems handle.filesDir handle.masterKey backupMasterKey archive.files
      ivs newIds 0 archive.items handle.index.items fs 0
    let handle' := { handle with index := { handle.index with items := r.1 } }
    .ok (r.2.2, handle', saveVault r.2.1 handle' tmp)

def c4old : VaultIndex := ⟨2, str "s", str "00:aa", []⟩

def c4new : VaultIndex := ⟨2, str "s2", str "11:bb", []⟩

def c4fs : FS := FS.write (fun _ => none) (getVaultPath .real) (.indexFile c4old)

/-! ## C1 — `openVault` with a wrong password -/

/-- A concrete derive-key function for evaluation: the correct password
derives the KEK `"aa"`, every other password derives `"bb"`. -/
def dkTest : DeriveKey := fun password _ _ =>
  if password = str "correct" then str "aa" else str "bb"

/-- A vault index whose key envelope wraps the Master Key `"cc"` under
the KEK derived from the correct password (exactly as `openVault`'s
create branch would store it). -/
def c1Index : VaultIndex :=
  ⟨2, str "s0", str "00" ++ str ":" ++ encryptString (asciiBytes (str "cc")) (str "aa") (str "00"),
    []⟩

def c1fs : FS := FS.write (fun _ => none) (getVaultPath .real) (.indexFile c1Index)

def c1e : Entropy := ⟨str "s1", str "dd", str "11", str "t1", str "99"⟩

/-! ## C3 — id collision on archive import -/

/-- The pre-existing vault item with id `x1`. -/
def c3itemX : VaultItem :=
  ⟨str "x1", str "file", str "o", str "m", none, none, 0, none, str "x1.enc", none⟩

/-- The archive item carrying the same id `x1`. -/
def c3itemA : VaultItem :=
  ⟨str "x1", str "file", str "a", str "m", none, none, 0, none, str "x1.enc", none⟩

def c3handle : VaultHandle :=
  ⟨.real, str "aa", ⟨2, str "s0", str "00:c9c9", [c3itemX]⟩, getVaultPath .real,
    getVaultFilesDir .real⟩

/-- The destination vault's content store: the existing item's ciphertext
file `x1.enc` holds the marker text `"old"`. -/
def c3fs : FS :=
  FS.write (fun _ => none) (getVaultFilesDir .real ++ str "x1.enc") (.text (str "old"))

def c3archive : Archive :=
  ⟨str "as", str "00:ab", [c3itemA], [(str "x1.enc", str "22:QQ==")]⟩

def c3run : Except JStr (Nat × VaultHandle × FS) :=
  importFromArchive dkTest c3fs c3handle c3archive (str "p") (str "sk")
    (fun _ => str "33") (fun _ => str "n1") (str "t3")

def c3fsAfter : FS :=
  match c3run with
  | .ok r => r.2.2
  | .error _ => fun _ => none

def c3itemsAfter : List VaultItem :=
  match c3run with
  | .ok r => r.2.1.index.items
  | .error _ => []

def c3countAfter : Nat :=
  match c3run with
  | .ok r => r.1
  | .error _ => 0

def c6handle : VaultHandle :=
  ⟨.real, str "aa", ⟨2, str "s0", str "00:c9c9", [c3itemX]⟩, getVaultPath .real,
    getVaultFilesDir .real⟩

/-- A backup index wrapping the Master Key `"cc"` under the KEK `"aa"`
derived for the correct password. -/
def c7bidx : VaultIndex :=
  ⟨2, str "sb", str "00" ++ str ":" ++ encryptString (asciiBytes (str "cc")) (str "aa") (str "00"),
    []⟩

/-- Garbage at the primary index path, a valid index at `.bak`. -/
def c7fs : FS :=
  FS.write (FS.write (fun _ => none) (getVaultPath .real) .garbage)
    (getVaultPath .real ++ str ".bak") (.indexFile c7bidx)

/-! ## C8 — versioned format tags (CryptoJS codec of `secureStorage`)

CryptoJS `AES.encrypt` / `AES.decrypt` and `PBKDF2` are external library
primitives and are parameters of the model; the codec's tag composition
and dispatch logic is translated from the source.  `dec` returns the
decrypted UTF-8 string, `[]` standing for the falsy empty result the
source tests with `if (!result)`. -/

structure AesCipher where
  enc : List Nat → List Nat → JStr → List Nat
  dec : List Nat → List Nat → List Nat → JStr
  legacyDec : JStr → JStr → JStr

/-- `CryptoJS.PBKDF2(password, salt, { iterations })`. -/
def Pbkdf2Fn := JStr → List Nat → Nat → List Nat

/-- `LEGACY_ENCRYPTION_ITERATIONS`. -/
def LEGACY_ENCRYPTION_ITERATIONS : Nat := 10000

/-- `OLD_ENCRYPTION_ITERATIONS`. -/
def OLD_ENCRYPTION_ITERATIONS : Nat := 1000

/-- `CryptoJS.enc.Base64.parse` (lenient; every call site passes valid
base64, where it agrees with strict decoding). -/
def cjsB64 (s : JStr) : List Nat := (base64ToBytes s).getD []

/-- The CryptoJS-codec `encryptData` (SVAULT3 format):
`'SVAULT3:' + base64(iv) + ':' + base64(ciphertext)`, with the key hex
string parsed via `CryptoJS.enc.Hex.parse`. -/
def cjsEncryptData (A : AesCipher) (data key : JStr) (ivBytes : List Nat) : JStr :=
  str "SVAULT3:" ++ bytesToBase64 ivBytes ++ str ":" ++
    bytesToBase64 (A.enc (hexToBytes key) ivBytes data)

/-- The CryptoJS-codec `decryptData`: dispatches on the format tag
(SVAULT3, then SVAULT2, then SVAULT, then the legacy `U2FsdGVk`
crypto-js format), throwing on an unknown format. -/
def cjsDecryptData (A : AesCipher) (P : Pbkdf2Fn) (encryptedData key : JStr) :
    Except JStr JStr :=
  if isPrefixList (str "SVAULT3:") encryptedData then
    let parts := splitColons encryptedData
    if parts.length ≠ 3 then .error (str "Invalid SVAULT3 format")
    else
      let iv := cjsB64 (parts.getD 1 [])
      let ciphertext := cjsB64 (parts.getD 2 [])
      let result := A.dec (hexToBytes key) iv ciphertext
      if result = [] then .error (str "Decryption failed - invalid key or corrupted data")
      else .ok result
  else if isPrefixList (str "SVAULT2:") encryptedData then
    let parts := splitColons encryptedData
    if parts.length ≠ 4 then .error (str "Invalid SVAULT2 format")
    else
      let salt := cjsB64 (parts.getD 1 [])
      let iv := cjsB64 (parts.getD 2 [])
      let ciphertext := cjsB64 (parts.getD 3 [])
      let derivedKey := P key salt LEGACY_ENCRYPTION_ITERATIONS
      let result := A.dec derivedKey iv ciphertext
      if result = [] then .error (str "Decryption failed - invalid key or corrupted data")
      else .ok result
  else if isPrefixList (str "SVAULT:") encryptedData then
    let parts := splitColons encryptedData
    if parts.length ≠ 4 then .error (str "Invalid SVAULT format")
    else
      let salt := cjsB64 (parts.getD 1 [])
      let iv := cjsB64 (parts.getD 2 [])
      let ciphertext := cjsB64 (parts.getD 3 [])
      let derivedKey := P key salt OLD_ENCRYPTION_ITERATIONS
      let result := A.dec derivedKey iv ciphertext
      if result = [] then .error (str "Decryption failed - invalid key or corrupted data")
      else .ok result
  else if isPrefixList (str "U2FsdGVk") encryptedData then
    let result := A.legacyDec encryptedData key
    if result = [] then .error (str "Decryption failed - invalid key or corrupted data")
    else .ok result
  else .error (str "Unknown encryption format")

/-- A concrete invertible cipher for instantiating the codec theorem:
each character is stored as four little-endian base-256 digits. -/
def witnessEncBytes : JStr → List Nat
  | [] => []
  | c :: rest =>
    c.toNat % 256 :: c.toNat / 256 % 256 :: c.toNat / 65536 % 256 ::
      c.toNat / 16777216 % 256 :: witnessEncBytes rest

def witnessDecBytes : List Nat → JStr
  | a :: b :: c :: d :: rest =>
    Char.ofNat (a + b * 256 + c * 65536 + d * 16777216) :: witnessDecBytes rest
  | _ => []

def witnessAes : AesCipher :=
  ⟨fun _ _ p => witnessEncBytes p, fun _ _ bs => witnessDecBytes bs, fun s _ => s⟩

/-! ## Theorems -/

theorem hexCharVal_hexDigitChar : ∀ d, d < 16 → hexCharVal (hexDigitChar d) = some d := by
  decide

theorem hexCharVal_lt {c : Char} {v : Nat} (h : hexCharVal c = some v) : v < 16 := by
  unfold hexCharVal at h
  split at h
  case isTrue h1 => injection h with h2; omega
  case isFalse h1 =>
    split at h
    case isTrue h2 => injection h with h3; omega
    case isFalse h2 =>
      split at h
      case isTrue h3 => injection h with h4; omega
      case isFalse h3 => exact absurd h (by simp)

theorem parseHexPair_lt (c1 c2 : Char) : parseHexPair c1 c2 < 256 := by
  unfold parseHexPair
  rcases h1 : hexCharVal c1 with _ | a
  · simp only [h1]; omega
  · have ha := hexCharVal_lt h1
    rcases h2 : hexCharVal c2 with _ | b
    · simp only [h1, h2]; omega
    · have hb := hexCharVal_lt h2
      simp only [h1, h2]; omega

theorem hexToBytes_lt : ∀ (s : JStr), ∀ b ∈ hexToBytes s, b < 256
  | [] => by simp [hexToBytes]
  | [c] => by simp [hexToBytes]
  | c1 :: c2 :: rest => by
    intro b hb
    simp only [hexToBytes, List.mem_cons] at hb
    rcases hb with rfl | hb
    · exact parseHexPair_lt c1 c2
    · exact hexToBytes_lt rest b hb

theorem hexToBytes_bytesToHex : ∀ (bs : List Nat), (∀ b ∈ bs, b < 256) →
    hexToBytes (bytesToHex bs) = bs
  | [], _ => rfl
  | b :: bs, h => by
    have hb : b < 256 := h b (.head _)
    have ih := hexToBytes_bytesToHex bs (fun x hx => h x (.tail _ hx))
    simp only [bytesToHex, byteToHexPair, List.cons_append, List.nil_append, List.append_eq,
      hexToBytes]
    rw [ih]
    have e1 := hexCharVal_hexDigitChar (b / 16) (by omega)
    have e2 := hexCharVal_hexDigitChar (b % 16) (by omega)
    simp only [parseHexPair, e1, e2]
    congr 1
    omega

theorem b64CharVal_b64Char : ∀ n, n < 64 → b64CharVal (b64Char n) = some n := by
  decide

theorem b64CharVal_lt {c : Char} {v : Nat} (h : b64CharVal c = some v) : v < 64 := by
  unfold b64CharVal at h
  split at h
  case isTrue h1 => injection h with h2; omega
  case isFalse h1 =>
    split at h
    case isTrue h2 => injection h with h3; omega
    case isFalse h2 =>
      split at h
      case isTrue h3 => injection h with h4; omega
      case isFalse h3 =>
        split at h
        case isTrue h4 => injection h with h5; omega
        case isFalse h4 =>
          split at h
          case isTrue h5 => injection h with h6; omega
          case isFalse h5 => exact absurd h (by simp)

theorem b64CharVal_eq_none_of_eq : b64CharVal '=' = none := by decide

theorem base64ToBytes_bytesToBase64 : ∀ (bs : List Nat), (∀ b ∈ bs, b < 256) →
    base64ToBytes (bytesToBase64 bs) = some bs
  | [], _ => by simp [bytesToBase64, base64ToBytes]
  | [a], h => by
    have ha : a < 256 := h a (.head _)
    have e1 := b64CharVal_b64Char (a / 4) (by omega)
    have e2 := b64CharVal_b64Char (a % 4 * 16) (by omega)
    simp only [bytesToBase64, base64ToBytes, e1, e2, b64CharVal_eq_none_of_eq]
    simp only [reduceIte, Option.some.injEq]
    congr 1
    omega
  | [a, b], h => by
    have ha : a < 256 := h a (.head _)
    have hb : b < 256 := h b (.tail _ (.head _))
    have e1 := b64CharVal_b64Char (a / 4) (by omega)
    have e2 := b64CharVal_b64Char (a % 4 * 16 + b / 16) (by omega)
    have e3 := b64CharVal_b64Char (b % 16 * 4) (by omega)
    simp only [bytesToBase64, base64ToBytes, e1, e2, e3, b64CharVal_eq_none_of_eq]
    simp only [reduceIte, Option.some.injEq]
    congr 1
    · omega
    · congr 1
      omega
  | a :: b :: c :: rest, h => by
    have ha : a < 256 := h a (.head _)
    have hb : b < 256 := h b (.tail _ (.head _))
    have hc : c < 256 := h c (.tail _ (.tail _ (.head _)))
    have ih := base64ToBytes_bytesToBase64 rest
      (fun x hx => h x (.tail _ (.tail _ (.tail _ hx))))
    have e1 := b64CharVal_b64Char (a / 4) (by omega)
    have e2 := b64CharVal_b64Char (a % 4 * 16 + b / 16) (by omega)
    have e3 := b64CharVal_b64Char (b % 16 * 4 + c / 64) (by omega)
    have e4 := b64CharVal_b64Char (c % 64) (by omega)
    simp only [bytesToBase64, base64ToBytes, e1, e2, e3, e4, ih]
    have f1 : a / 4 * 4 + (a % 4 * 16 + b / 16) / 16 = a := by omega
    have f2 : (a % 4 * 16 + b / 16) % 16 * 16 + (b % 16 * 4 + c / 64) / 4 = b := by omega
    have f3 : (b % 16 * 4 + c / 64) % 4 * 64 + c % 64 = c := by omega
    simp [f1, f2, f3]

theorem xorKey_length (ks : List Nat) : ∀ (i : Nat) (d : List Nat),
    (xorKey ks i d).length = d.length
  | _, [] => rfl
  | i, _ :: rest => by simp [xorKey, xorKey_length ks (i + 1) rest]

theorem xorKey_xorKey (ks : List Nat) : ∀ (i : Nat) (d : List Nat),
    xorKey ks i (xorKey ks i d) = d
  | _, [] => rfl
  | i, b :: rest => by
    simp only [xorKey, xorKey_xorKey ks (i + 1) rest]
    congr 1
    rw [Nat.xor_assoc, Nat.xor_self, Nat.xor_zero]

theorem getD_lt_256 {l : List Nat} (h : ∀ b ∈ l, b < 256) (n : Nat) : l.getD n 0 < 256 := by
  rcases Nat.lt_or_ge n l.length with hlt | hge
  · rw [List.getD_eq_getElem l 0 hlt]
    exact h _ (List.getElem_mem hlt)
  · rw [List.getD_eq_default l 0 hge]
    omega

theorem xorKey_lt (ks : List Nat) (hk : ∀ b ∈ ks, b < 256) :
    ∀ (i : Nat) (d : List Nat), (∀ b ∈ d, b < 256) → ∀ b ∈ xorKey ks i d, b < 256
  | _, [], _ => by simp [xorKey]
  | i, b :: rest, hd => by
    intro x hx
    simp only [xorKey, List.mem_cons] at hx
    rcases hx with rfl | hx
    · have h1 : b < 256 := hd b (.head _)
      have h2 : ks.getD (i % ks.length) 0 < 256 := getD_lt_256 hk _
      have h3 : (256 : Nat) = 2 ^ 8 := by norm_num
      rw [h3] at h1 h2 ⊢
      exact Nat.xor_lt_two_pow h1 h2
    · exact xorKey_lt ks hk (i + 1) rest (fun y hy => hd y (.tail _ hy)) x hx

theorem xorKey_get? (ks : List Nat) : ∀ (i : Nat) (d : List Nat) (n : Nat),
    (xorKey ks i d).get? n = (d.get? n).map (fun b => b ^^^ ks.getD ((i + n) % ks.length) 0)
  | _, [], n => by simp [xorKey]
  | i, b :: rest, 0 => by simp [xorKey]
  | i, b :: rest, n + 1 => by
    have e : i + 1 + n = i + (n + 1) := by omega
    simp only [xorKey, List.get?]
    rw [xorKey_get? ks (i + 1) rest n, e]

/-- The keystream actually used by the string/data codecs (after the
hex → bytes → hex round trip of the combined key). -/
theorem combinedKey_lt (keyHex iv : JStr) : ∀ b ∈ combinedKey keyHex iv, b < 256 :=
  xorKey_lt (hexToBytes iv) (hexToBytes_lt iv) 0 (hexToBytes keyHex) (hexToBytes_lt keyHex)

theorem decryptString_encryptString (p : List Nat) (keyHex iv : JStr)
    (hp : ∀ b ∈ p, b < 256) :
    decryptString (encryptString p keyHex iv) keyHex iv = p := by
  unfold decryptString encryptString xorDecrypt xorEncrypt
  rw [hexToBytes_bytesToHex (combinedKey keyHex iv) (combinedKey_lt keyHex iv)]
  rw [hexToBytes_bytesToHex _ (xorKey_lt _ (combinedKey_lt keyHex iv) 0 p hp)]
  exact xorKey_xorKey _ 0 p

theorem decryptData_encryptData (p : List Nat) (keyHex iv : JStr)
    (hp : ∀ b ∈ p, b < 256) :
    (encryptData (bytesToBase64 p) keyHex iv).bind
      (fun ct => decryptData ct keyHex iv) = some (bytesToBase64 p) := by
  unfold encryptData decryptData xorDecrypt xorEncrypt
  rw [hexToBytes_bytesToHex (combinedKey keyHex iv) (combinedKey_lt keyHex iv)]
  rw [base64ToBytes_bytesToBase64 p hp]
  simp only [Option.map_some', Option.some_bind]
  rw [base64ToBytes_bytesToBase64 _ (xorKey_lt _ (combinedKey_lt keyHex iv) 0 p hp)]
  simp only [Option.map_some', Option.some.injEq]
  rw [xorKey_xorKey]

theorem bytesToStringM_asciiBytes (s : JStr) : bytesToStringM (asciiBytes s) = s := by
  unfold bytesToStringM asciiBytes
  rw [List.map_map]
  simp [Function.comp_def, Char.ofNat_toNat]

theorem splitColons_ne_nil : ∀ (s : JStr), splitColons s ≠ []
  | [] => by simp [splitColons]
  | c :: rest => by
    simp only [splitColons]
    split
    · simp
    · rcases h : splitColons rest with _ | ⟨hd, t⟩ <;> simp

theorem splitColons_no_colon {s : JStr} (h : ∀ c ∈ s, c ≠ ':') :
    splitColons s = [s] := by
  induction s with
  | nil => rfl
  | cons c rest ih =>
    have hc : c ≠ ':' := h c (.head _)
    have ih' := ih (fun x hx => h x (.tail _ hx))
    simp only [splitColons, if_neg hc, ih']

theorem splitColons_append {a : JStr} (r : JStr) (h : ∀ c ∈ a, c ≠ ':') :
    splitColons (a ++ ':' :: r) = a :: splitColons r := by
  induction a with
  | nil => simp [splitColons]
  | cons c rest ih =>
    have hc : c ≠ ':' := h c (.head _)
    have ih' := ih (fun x hx => h x (.tail _ hx))
    simp only [List.cons_append, splitColons, if_neg hc, List.append_eq, ih']

theorem splitEnvelope_append {iv rest : JStr} (hiv : ∀ c ∈ iv, c ≠ ':')
    (hrest : ∀ c ∈ rest, c ≠ ':') :
    splitEnvelope (iv ++ ':' :: rest) = (iv, rest) := by
  unfold splitEnvelope
  rw [splitColons_append rest hiv, splitColons_no_colon hrest]
  rfl

/-- Every character of a hex string is a hex digit, never a colon. -/
theorem bytesToHex_no_colon : ∀ (bs : List Nat), ∀ c ∈ bytesToHex bs, c ≠ ':'
  | [] => by simp [bytesToHex]
  | b :: bs => by
    intro c hc
    simp only [bytesToHex, byteToHexPair, List.cons_append, List.nil_append,
      List.mem_cons] at hc
    have hdig : ∀ n, hexDigitChar n ≠ ':' := by
      intro n
      unfold hexDigitChar
      rcases Nat.lt_or_ge n hexDigits.length with hlt | hge
      · rw [List.getD_eq_getElem _ _ hlt]
        have : ∀ x ∈ hexDigits, x ≠ ':' := by decide
        exact this _ (List.getElem_mem hlt)
      · rw [List.getD_eq_default _ _ hge]
        decide
    rcases hc with rfl | rfl | hc
    · exact hdig _
    · exact hdig _
    · exact bytesToHex_no_colon bs c hc

theorem isPrefixList_append : ∀ (a b : JStr), isPrefixList a (a ++ b) = true
  | [], _ => rfl
  | c :: as, b => by simp [isPrefixList, isPrefixList_append as b]

theorem FS.write_self (fs : FS) (p : JStr) (d : FileData) : fs.write p d p = some d := by
  simp [FS.write]

theorem FS.write_ne (fs : FS) {p q : JStr} (d : FileData) (h : q ≠ p) :
    fs.write p d q = fs q := by
  simp [FS.write, h]

theorem FS.remove_ne (fs : FS) {p q : JStr} (h : q ≠ p) : fs.remove p q = fs q := by
  simp [FS.remove, h]

/-! ## Path disequalities -/

theorem ne_of_length_ne {α : Type} {a b : List α} (h : a.length ≠ b.length) : a ≠ b :=
  fun e => h (by rw [e])

theorem tempPath_ne_indexPath (ip tmp : JStr) : ip ++ str ".tmp." ++ tmp ≠ ip := by
  apply ne_of_length_ne
  simp only [List.length_append]
  have h5 : (str ".tmp.").length = 5 := rfl
  omega

theorem tempPath_ne_backupPath (ip tmp : JStr) :
    ip ++ str ".tmp." ++ tmp ≠ ip ++ str ".bak" := by
  apply ne_of_length_ne
  simp only [List.length_append]
  have h5 : (str ".tmp.").length = 5 := rfl
  have h4 : (str ".bak").length = 4 := rfl
  omega

theorem backupPath_ne_indexPath (ip : JStr) : ip ++ str ".bak" ≠ ip := by
  apply ne_of_length_ne
  simp only [List.length_append]
  have h4 : (str ".bak").length = 4 := rfl
  omega

/-! ## C4 — atomicity of `saveIndex` -/

/-- **C4.** `saveIndex` writes the new index to a uniquely-named temp
file, copies the current primary to `.bak` if it exists, then replaces
the primary.  For a crash at any step of the sequence, the on-disk state
still contains the old valid index or the new valid index at some
readable path — never only a half-written or absent index. -/
theorem saveIndex_crash_safe (fs : FS) (indexPath : JStr) (oldIdx newIdx : VaultIndex)
    (tmp : JStr) (h : fs indexPath = some (.indexFile oldIdx)) :
    ∀ s ∈ saveSteps fs indexPath newIdx tmp,
      (∃ p, s p = some (.indexFile oldIdx)) ∨ (∃ p, s p = some (.indexFile newIdx)) := by
  intro s hs
  have t_ne_i := tempPath_ne_indexPath indexPath tmp
  have t_ne_b := tempPath_ne_backupPath indexPath tmp
  have b_ne_i := backupPath_ne_indexPath indexPath
  have h1i : (fs.write (indexPath ++ str ".tmp." ++ tmp) (.indexFile newIdx)) indexPath =
      some (.indexFile oldIdx) := by
    rw [FS.write_ne fs _ (Ne.symm t_ne_i)]; exact h
  simp only [saveSteps, List.mem_cons, List.not_mem_nil, or_false, h1i,
    Option.isSome_some, if_true] at hs
  rcases hs with rfl | rfl | rfl | rfl | rfl | rfl | rfl
  · exact .inl ⟨indexPath, h⟩
  · exact .inl ⟨indexPath, by rw [FS.write_ne fs _ (Ne.symm t_ne_i)]; exact h⟩
  · exact .inl ⟨indexPath, h1i⟩
  · exact .inl ⟨indexPath, by
      rw [FS.write_ne _ _ (Ne.symm b_ne_i)]
      exact h1i⟩
  · exact .inl ⟨indexPath ++ str ".bak", FS.write_self _ _ _⟩
  · exact .inl ⟨indexPath ++ str ".bak", by
      rw [FS.remove_ne _ b_ne_i]
      exact FS.write_self _ _ _⟩
  · refine .inr ⟨indexPath, ?_⟩
    unfold saveIndexRun
    simp only [h1i, Option.isSome_some, if_true]
    have htmp : (((fs.write (indexPath ++ str ".tmp." ++ tmp) (.indexFile newIdx)).write
        (indexPath ++ str ".bak") (.indexFile oldIdx)).remove indexPath)
        (indexPath ++ str ".tmp." ++ tmp) = some (.indexFile newIdx) := by
      rw [FS.remove_ne _ t_ne_i, FS.write_ne _ _ t_ne_b]
      exact FS.write_self _ _ _
    rw [htmp]
    exact FS.write_self _ _ _

theorem getD_mem {α : Type} (l : List α) (n : Nat) (d : α) (h : n < l.length) :
    l.getD n d ∈ l := by
  rw [List.getD_eq_getElem l d h]
  exact List.getElem_mem h

/-- Witness for C4 at a concrete vault, evaluated at the crash point just
after the primary index has been deleted. -/
theorem saveIndex_crash_safe_witness :
    (∃ p, ((saveSteps c4fs (getVaultPath .real) c4new (str "t0")).getD 5 (fun _ => none)) p =
        some (.indexFile c4old)) ∨
    (∃ p, ((saveSteps c4fs (getVaultPath .real) c4new (str "t0")).getD 5 (fun _ => none)) p =
        some (.indexFile c4new)) :=
  saveIndex_crash_safe c4fs (getVaultPath .real) c4old c4new (str "t0")
    (FS.write_self _ _ _) _ (getD_mem _ 5 _ (by decide))

/-! ## C5 — encrypt/decrypt round trip (fastCrypto) -/

/-- **C5.** For every plaintext payload `P` (as its byte sequence) and
every key and IV, decrypting the result of `encryptString` with the same
key and IV returns exactly `P`, and likewise along the `encryptData` /
`decryptData` path used for file contents. -/
theorem round_trip (p : List Nat) (keyHex iv : JStr) (hp : ∀ b ∈ p, b < 256) :
    decryptString (encryptString p keyHex iv) keyHex iv = p ∧
    (encryptData (bytesToBase64 p) keyHex iv).bind
      (fun ct => decryptData ct keyHex iv) = some (bytesToBase64 p) :=
  ⟨decryptString_encryptString p keyHex iv hp, decryptData_encryptData p keyHex iv hp⟩

/-- Witness for C5 at plaintext bytes `[104, 105]`, key `"aa"`, IV `"0f"`. -/
theorem round_trip_witness :
    decryptString (encryptString [104, 105] (str "aa") (str "0f")) (str "aa") (str "0f") =
      [104, 105] ∧
    (encryptData (bytesToBase64 [104, 105]) (str "aa") (str "0f")).bind
      (fun ct => decryptData ct (str "aa") (str "0f")) = some (bytesToBase64 [104, 105]) :=
  round_trip [104, 105] (str "aa") (str "0f") (by decide)

/-! ## C10 — the XOR path neither pads nor expands -/

/-- **C10.** `xorEncrypt` produces exactly as many ciphertext bytes as
there are plaintext bytes, and along `encryptData` the stored ciphertext
is the base64 of exactly `p.length` XORed bytes — no padding, block
expansion or authentication tag is added. -/
theorem xor_no_expansion (data p : List Nat) (keyHex iv : JStr) (hp : ∀ b ∈ p, b < 256) :
    (xorEncrypt data keyHex).length = data.length ∧
    encryptData (bytesToBase64 p) keyHex iv =
      some (bytesToBase64 (xorEncrypt p (bytesToHex (combinedKey keyHex iv)))) ∧
    (xorEncrypt p (bytesToHex (combinedKey keyHex iv))).length = p.length := by
  refine ⟨xorKey_length _ 0 data, ?_, xorKey_length _ 0 p⟩
  unfold encryptData
  rw [base64ToBytes_bytesToBase64 p hp]
  rfl

/-- Witness for C10 at data `[1, 2, 3]`, key `"aa"`, IV `"0f"`. -/
theorem xor_no_expansion_witness :
    (xorEncrypt [9, 9] (str "ff")).length = 2 ∧
    encryptData (bytesToBase64 [1, 2, 3]) (str "aa") (str "0f") =
      some (bytesToBase64 (xorEncrypt [1, 2, 3] (bytesToHex (combinedKey (str "aa") (str "0f"))))) ∧
    (xorEncrypt [1, 2, 3] (bytesToHex (combinedKey (str "aa") (str "0f")))).length = 3 := by
  have h := xor_no_expansion [9, 9] [1, 2, 3] (str "aa") (str "0f") (by decide)
  exact ⟨h.1, h.2.1, h.2.2⟩

/-! ## C2 — wrong-key decryption on the fast path -/

/-- Counterexample to C2 as stated: on the fastCrypto path, decrypting a
ciphertext produced under key `"00"` with the different key `"01"`
does not fail — it successfully returns a decoded payload, and that
payload is not the original plaintext. -/
theorem wrong_key_silent_garbage_counterexample :
    (decryptData ((encryptData (bytesToBase64 [65]) (str "00") (str "00")).getD [])
      (str "01") (str "00")).isSome = true ∧
    decryptData ((encryptData (bytesToBase64 [65]) (str "00") (str "00")).getD [])
      (str "01") (str "00") ≠ some (bytesToBase64 [65]) := by decide

/-- **C2 (amended).** The fastCrypto XOR codec has no authentication:
decrypting `encrypt(P, K1)` with a different key `K2` never fails, and
whenever the two keystreams differ at some position inside `P` the
successfully returned payload differs from `P`. -/
theorem wrong_key_decrypts_silently (p : List Nat) (k1 k2 iv : JStr)
    (hp : ∀ b ∈ p, b < 256) (i : Nat) (hi : i < p.length)
    (hks : keyStreamByte (bytesToHex (combinedKey k1 iv)) i ≠
      keyStreamByte (bytesToHex (combinedKey k2 iv)) i) :
    (encryptData (bytesToBase64 p) k1 iv).bind (fun ct => decryptData ct k2 iv) ≠ none ∧
    (encryptData (bytesToBase64 p) k1 iv).bind (fun ct => decryptData ct k2 iv) ≠
      some (bytesToBase64 p) := by
  have hct : ∀ b ∈ xorKey (hexToBytes (bytesToHex (combinedKey k1 iv))) 0 p, b < 256 :=
    xorKey_lt _ (hexToBytes_lt _) 0 p hp
  have hrun : (encryptData (bytesToBase64 p) k1 iv).bind (fun ct => decryptData ct k2 iv) =
      some (bytesToBase64 (xorKey (hexToBytes (bytesToHex (combinedKey k2 iv))) 0
        (xorKey (hexToBytes (bytesToHex (combinedKey k1 iv))) 0 p))) := by
    unfold encryptData decryptData xorDecrypt xorEncrypt
    rw [base64ToBytes_bytesToBase64 p hp]
    simp only [Option.map_some', Option.some_bind]
    rw [base64ToBytes_bytesToBase64 _ hct]
    simp only [Option.map_some']
  constructor
  · rw [hrun]; exact Option.some_ne_none _
  · rw [hrun]
    intro hEq
    simp only [Option.some.injEq] at hEq
    have hx2 : ∀ b ∈ xorKey (hexToBytes (bytesToHex (combinedKey k2 iv))) 0
        (xorKey (hexToBytes (bytesToHex (combinedKey k1 iv))) 0 p), b < 256 :=
      xorKey_lt _ (hexToBytes_lt _) 0 _ hct
    have hbytes := congrArg base64ToBytes hEq
    rw [base64ToBytes_bytesToBase64 _ hx2, base64ToBytes_bytesToBase64 p hp] at hbytes
    simp only [Option.some.injEq] at hbytes
    have hget := congrArg (fun l => l.get? i) hbytes
    simp only at hget
    rw [xorKey_get?, xorKey_get?] at hget
    rcases hpi : p.get? i with _ | pi
    · have := List.get?_eq_none.mp hpi
      omega
    · rw [hpi] at hget
      simp only [Option.map_some', Option.some.injEq, Nat.zero_add] at hget
      apply hks
      have hz : pi ^^^ keyStreamByte (bytesToHex (combinedKey k1 iv)) i ^^^
          keyStreamByte (bytesToHex (combinedKey k2 iv)) i = pi := by
        unfold keyStreamByte
        exact hget
      rw [Nat.xor_assoc] at hz
      have h0 := congrArg (fun x => pi ^^^ x) hz
      simp only [Nat.xor_cancel_left, Nat.xor_self] at h0
      exact Nat.xor_eq_zero.mp h0

/-- Witness for the amended C2 at plaintext `[65]`, keys `"00"` and
`"01"`, IV `"00"`, differing keystream position `0`. -/
theorem wrong_key_decrypts_silently_witness :
    (encryptData (bytesToBase64 [65]) (str "00") (str "00")).bind
      (fun ct => decryptData ct (str "01") (str "00")) ≠ none ∧
    (encryptData (bytesToBase64 [65]) (str "00") (str "00")).bind
      (fun ct => decryptData ct (str "01") (str "00")) ≠ some (bytesToBase64 [65]) :=
  wrong_key_decrypts_silently [65] (str "00") (str "01") (str "00") (by decide) 0
    (by decide) (by decide)

/-- Evaluation of C1's failing input: opening the vault with a wrong
password (whose derived KEK is not the one the envelope was wrapped
under) does **not** return null — the XOR-based `decryptString` never
fails, so `openVault` returns a handle holding a garbage Master Key.
With the correct password the true Master Key `"cc"` is returned. -/
theorem openVault_wrong_password_returns_handle :
    (openVault dkTest c1fs .real (str "wrong") (str "sk") c1e).1 ≠ none ∧
    (openVault dkTest c1fs .real (str "wrong") (str "sk") c1e).1.map VaultHandle.masterKey ≠
      some (str "cc") ∧
    (openVault dkTest c1fs .real (str "correct") (str "sk") c1e).1.map VaultHandle.masterKey =
      some (str "cc") := by decide

/-- Evaluation of C3's failing input: importing an archive item whose id
`x1` collides with an existing item does produce two items with distinct
ids (`n1` and `x1`), but the import wrote its re-encrypted file to
`x1.enc` **before** the collision check and then moved that file to
`n1.enc` — so after the import the pre-existing item's ciphertext file
`x1.enc` no longer exists and its original content `"old"` is gone. -/
theorem importFromArchive_collision_destroys_existing_file :
    c3countAfter = 1 ∧
    c3itemsAfter.map VaultItem.id = [str "n1", str "x1"] ∧
    c3itemsAfter.map VaultItem.encryptedFileName = [str "n1.enc", str "x1.enc"] ∧
    c3fsAfter (getVaultFilesDir .real ++ str "x1.enc") = none ∧
    c3fsAfter (getVaultFilesDir .real ++ str "n1.enc") ≠ some (.text (str "old")) := by decide

/-! ## Frame property of `saveIndexRun` -/

/-- `saveIndex` only ever touches the primary index path, its `.bak`
backup and its unique temp file; every other path is untouched. -/
theorem saveIndexRun_frame (fs : FS) (indexPath : JStr) (idx : VaultIndex) (tmp : JStr)
    (q : JStr) (h1 : q ≠ indexPath) (h2 : q ≠ indexPath ++ str ".bak")
    (h3 : q ≠ indexPath ++ str ".tmp." ++ tmp) :
    saveIndexRun fs indexPath idx tmp q = fs q := by
  have t_ne_i := tempPath_ne_indexPath indexPath tmp
  have t_ne_b := tempPath_ne_backupPath indexPath tmp
  unfold saveIndexRun
  rcases hinfo : (fs.write (indexPath ++ str ".tmp." ++ tmp) (.indexFile idx)) indexPath
    with _ | c
  · simp only [hinfo, Option.isSome_none, Bool.false_eq_true, if_false]
    rw [FS.write_self]
    show (((fs.write (indexPath ++ str ".tmp." ++ tmp) (.indexFile idx)).remove
        (indexPath ++ str ".tmp." ++ tmp)).write indexPath (.indexFile idx)) q = fs q
    rw [FS.write_ne _ _ h1, FS.remove_ne _ h3, FS.write_ne _ _ h3]
  · simp only [hinfo, Option.isSome_some, if_true]
    have htmp : (((fs.write (indexPath ++ str ".tmp." ++ tmp) (.indexFile idx)).write
        (indexPath ++ str ".bak") c).remove indexPath) (indexPath ++ str ".tmp." ++ tmp) =
        some (.indexFile idx) := by
      rw [FS.remove_ne _ t_ne_i, FS.write_ne _ _ t_ne_b]
      exact FS.write_self _ _ _
    rw [htmp]
    show (((((fs.write (indexPath ++ str ".tmp." ++ tmp) (.indexFile idx)).write
        (indexPath ++ str ".bak") c).remove indexPath).remove
        (indexPath ++ str ".tmp." ++ tmp)).write indexPath (.indexFile idx)) q = fs q
    rw [FS.write_ne _ _ h1, FS.remove_ne _ h3, FS.remove_ne _ h1, FS.write_ne _ _ h2,
      FS.write_ne _ _ h3]

/-! ## C6 — `changeVaultPassword` frame -/

theorem filesDir_append_ne (t : VaultType) (fn X : JStr) :
    getVaultFilesDir t ++ fn ≠ getVaultPath t ++ X := by
  unfold getVaultFilesDir getVaultPath
  intro hEq
  simp only [List.append_assoc] at hEq
  have h2 := List.append_cancel_left (List.append_cancel_left hEq)
  rw [show str "_files/" = '_' :: str "files/" from rfl,
    show str ".svault" = '.' :: str "svault" from rfl] at h2
  simp only [List.cons_append] at h2
  injection h2 with hc _
  exact absurd hc (by decide)

theorem filesDir_ne_indexPath (t : VaultType) (fn : JStr) :
    getVaultFilesDir t ++ fn ≠ getVaultPath t := by
  rw [show getVaultPath t = getVaultPath t ++ ([] : JStr) by simp]
  exact filesDir_append_ne t fn []

/-- **C6.** `changeVaultPassword` generates a fresh salt, derives a new
KEK, re-wraps the existing Master Key into a new envelope and persists
only the updated salt and envelope: the index's item list (and version)
are unchanged, and no path under the vault's content directory — in
particular no item ciphertext file — is touched. -/
theorem changePassword_frame (dk : DeriveKey) (fs : FS) (handle : VaultHandle)
    (newPassword secretKey : JStr) (e : Entropy) (t : VaultType)
    (hip : handle.indexPath = getVaultPath t) (hfd : handle.filesDir = getVaultFilesDir t) :
    (changeVaultPassword dk fs handle newPassword secretKey e).1 = true ∧
    (changeVaultPassword dk fs handle newPassword secretKey e).2.1.index.items =
      handle.index.items ∧
    (changeVaultPassword dk fs handle newPassword secretKey e).2.1.index.version =
      handle.index.version ∧
    (changeVaultPassword dk fs handle newPassword secretKey e).2.1.index.salt = e.salt ∧
    (changeVaultPassword dk fs handle newPassword secretKey e).2.1.index.keyEnvelope =
      e.iv ++ str ":" ++
        encryptString (asciiBytes handle.masterKey) (dk newPassword secretKey e.salt) e.iv ∧
    ∀ fn : JStr, (changeVaultPassword dk fs handle newPassword secretKey e).2.2
      (handle.filesDir ++ fn) = fs (handle.filesDir ++ fn) := by
  refine ⟨rfl, rfl, rfl, rfl, rfl, ?_⟩
  intro fn
  unfold changeVaultPassword saveVault
  simp only
  rw [hip, hfd]
  exact saveIndexRun_frame fs (getVaultPath t) _ e.tmp _
    (filesDir_ne_indexPath t fn)
    (filesDir_append_ne t fn (str ".bak"))
    (by rw [List.append_assoc]
        exact filesDir_append_ne t fn (str ".tmp." ++ e.tmp))

/-- Witness for C6: changing the password of a concrete vault leaves the
item list unchanged and the bytes of the item ciphertext file
`x1.enc` untouched. -/
theorem changePassword_frame_witness :
    (changeVaultPassword dkTest c3fs c6handle (str "new") (str "sk") c1e).1 = true ∧
    (changeVaultPassword dkTest c3fs c6handle (str "new") (str "sk") c1e).2.1.index.items =
      c6handle.index.items ∧
    (changeVaultPassword dkTest c3fs c6handle (str "new") (str "sk") c1e).2.2
      (c6handle.filesDir ++ str "x1.enc") = c3fs (c6handle.filesDir ++ str "x1.enc") := by
  have h := changePassword_frame dkTest c3fs c6handle (str "new") (str "sk") c1e .real rfl rfl
  exact ⟨h.1, h.2.1, h.2.2.2.2.2 (str "x1.enc")⟩

/-! ## C7 — recovery from a corrupt primary index -/

theorem corruptedPath_ne_indexPath (ip now : JStr) : ip ++ str ".corrupted." ++ now ≠ ip := by
  apply ne_of_length_ne
  simp only [List.length_append]
  have h11 : (str ".corrupted.").length = 11 := rfl
  omega

theorem corruptedPath_ne_backupPath (ip now : JStr) :
    ip ++ str ".corrupted." ++ now ≠ ip ++ str ".bak" := by
  apply ne_of_length_ne
  simp only [List.length_append]
  have h11 : (str ".corrupted.").length = 11 := rfl
  have h4 : (str ".bak").length = 4 := rfl
  omega

theorem corruptedPath_ne_tempPath (ip now tmp : JStr) :
    ip ++ str ".corrupted." ++ now ≠ ip ++ str ".tmp." ++ tmp := by
  intro hEq
  rw [List.append_assoc, List.append_assoc] at hEq
  have h2 := List.append_cancel_left hEq
  rw [show str ".corrupted." = '.' :: 'c' :: str "orrupted." from rfl,
    show str ".tmp." = '.' :: 't' :: str "mp." from rfl] at h2
  simp only [List.cons_append] at h2
  injection h2 with _ h3
  injection h3 with hc _
  exact absurd hc (by decide)

/-- **C7.** When the primary index file is unparseable: if the `.bak`
file holds a valid index whose envelope was wrapped under the KEK
derived for the supplied password, `openVault` succeeds by loading the
backup, restores the primary from the backup copy, and returns a handle
for the backed-up index.  Only when the backup also fails (here: is
absent) are the corrupted files archived under a timestamped
`.corrupted` name and an empty vault recreated. -/
theorem openVault_recovers_from_backup (dk : DeriveKey) (fs : FS) (t : VaultType)
    (password secretKey mk envIv : JStr) (e : Entropy) (bidx : VaultIndex)
    (hmain : fs (getVaultPath t) = some .garbage) :
    ((bidx.keyEnvelope = envIv ++ str ":" ++
        encryptString (asciiBytes mk) (dk password secretKey bidx.salt) envIv) →
     (∀ c ∈ envIv, c ≠ ':') → mk ≠ [] → (∀ c ∈ mk, c.toNat < 256) →
     fs (getVaultPath t ++ str ".bak") = some (.indexFile bidx) →
       (openVault dk fs t password secretKey e).1 =
         some ⟨t, mk, bidx, getVaultPath t, getVaultFilesDir t⟩ ∧
       (openVault dk fs t password secretKey e).2 (getVaultPath t) =
         some (.indexFile bidx)) ∧
    (fs (getVaultPath t ++ str ".bak") = none →
       (∃ h : VaultHandle, (openVault dk fs t password secretKey e).1 = some h ∧
         h.index.items = []) ∧
       (openVault dk fs t password secretKey e).2
         (getVaultPath t ++ str ".corrupted." ++ e.now) = some .garbage) := by
  constructor
  · intro henv hiv hne h256 hbak
    have hmkb : ∀ b ∈ asciiBytes mk, b < 256 := by
      intro b hb
      unfold asciiBytes at hb
      rcases List.mem_map.mp hb with ⟨c, hc, rfl⟩
      exact h256 c hc
    have hsplit : splitEnvelope bidx.keyEnvelope =
        (envIv, encryptString (asciiBytes mk) (dk password secretKey bidx.salt) envIv) := by
      rw [henv, List.append_assoc]
      rw [show str ":" ++ encryptString (asciiBytes mk) (dk password secretKey bidx.salt) envIv =
        ':' :: encryptString (asciiBytes mk) (dk password secretKey bidx.salt) envIv from rfl]
      exact splitEnvelope_append hiv (bytesToHex_no_colon _)
    have hdec : decryptString
        (encryptString (asciiBytes mk) (dk password secretKey bidx.salt) envIv)
        (dk password secretKey bidx.salt) envIv = asciiBytes mk :=
      decryptString_encryptString _ _ _ hmkb
    have hmkne : asciiBytes mk ≠ [] := by
      unfold asciiBytes
      simp only [ne_eq, List.map_eq_nil_iff]
      exact hne
    unfold openVault
    simp only [hmain, hbak, hsplit, hdec, if_neg hmkne]
    exact ⟨by rw [bytesToStringM_asciiBytes], FS.write_self _ _ _⟩
  · intro hbakn
    have b_ne_i := backupPath_ne_indexPath (getVaultPath t)
    have c_ne_b := corruptedPath_ne_backupPath (getVaultPath t) e.now
    have hnuked : ((fs.remove (getVaultPath t)).write
        (getVaultPath t ++ str ".corrupted." ++ e.now) .garbage)
        (getVaultPath t ++ str ".bak") = none := by
      rw [FS.write_ne _ _ (Ne.symm c_ne_b), FS.remove_ne _ b_ne_i]
      exact hbakn
    unfold openVault
    simp only [hmain, hbakn, hnuked]
    constructor
    · exact ⟨_, rfl, rfl⟩
    · unfold createVault
      simp only
      rw [saveIndexRun_frame _ _ _ _ _
        (corruptedPath_ne_indexPath (getVaultPath t) e.now)
        (corruptedPath_ne_backupPath (getVaultPath t) e.now)
        (corruptedPath_ne_tempPath (getVaultPath t) e.now e.tmp)]
      exact FS.write_self _ _ _

/-- Witness for C7: a concrete vault with a garbage primary and a valid
backup is opened with the correct password; the backup index is returned
and restored to the primary path. -/
theorem openVault_recovers_from_backup_witness :
    (openVault dkTest c7fs .real (str "correct") (str "sk") c1e).1 =
      some ⟨.real, str "cc", c7bidx, getVaultPath .real, getVaultFilesDir .real⟩ ∧
    (openVault dkTest c7fs .real (str "correct") (str "sk") c1e).2 (getVaultPath .real) =
      some (.indexFile c7bidx) :=
  (openVault_recovers_from_backup dkTest c7fs .real (str "correct") (str "sk") (str "cc")
    (str "00") c1e c7bidx (by decide)).1 (by decide) (by decide) (by decide) (by decide)
    (by decide)

theorem b64Char_ne_colon (n : Nat) : b64Char n ≠ ':' := by
  unfold b64Char
  rcases Nat.lt_or_ge n b64Alphabet.length with hlt | hge
  · rw [List.getD_eq_getElem _ _ hlt]
    have halpha : ∀ x ∈ b64Alphabet, x ≠ ':' := by decide
    exact halpha _ (List.getElem_mem hlt)
  · rw [List.getD_eq_default _ _ hge]
    decide

theorem bytesToBase64_no_colon : ∀ (bs : List Nat), ∀ c ∈ bytesToBase64 bs, c ≠ ':'
  | [] => by simp [bytesToBase64]
  | [a] => by
    intro c hc
    simp only [bytesToBase64, List.mem_cons, List.not_mem_nil, or_false] at hc
    rcases hc with rfl | rfl | rfl | rfl
    · exact b64Char_ne_colon _
    · exact b64Char_ne_colon _
    · decide
    · decide
  | [a, b] => by
    intro c hc
    simp only [bytesToBase64, List.mem_cons, List.not_mem_nil, or_false] at hc
    rcases hc with rfl | rfl | rfl | rfl
    · exact b64Char_ne_colon _
    · exact b64Char_ne_colon _
    · exact b64Char_ne_colon _
    · decide
  | a :: b :: c :: rest => by
    intro x hx
    simp only [bytesToBase64, List.mem_cons] at hx
    rcases hx with rfl | rfl | rfl | rfl | hx
    · exact b64Char_ne_colon _
    · exact b64Char_ne_colon _
    · exact b64Char_ne_colon _
    · exact b64Char_ne_colon _
    · exact bytesToBase64_no_colon rest x hx

theorem cjsB64_bytesToBase64 {bs : List Nat} (h : ∀ b ∈ bs, b < 256) :
    cjsB64 (bytesToBase64 bs) = bs := by
  unfold cjsB64
  rw [base64ToBytes_bytesToBase64 bs h]
  rfl

theorem not_sv2_of_sv3 (r : JStr) : isPrefixList (str "SVAULT2:") (str "SVAULT3:" ++ r) = false :=
  rfl

theorem not_sv_of_sv3 (r : JStr) : isPrefixList (str "SVAULT:") (str "SVAULT3:" ++ r) = false :=
  rfl

theorem not_legacy_of_sv3 (r : JStr) :
    isPrefixList (str "U2FsdGVk") (str "SVAULT3:" ++ r) = false :=
  rfl

theorem not_sv3_of_sv2 (r : JStr) : isPrefixList (str "SVAULT3:") (str "SVAULT2:" ++ r) = false :=
  rfl

theorem not_sv3_of_sv (r : JStr) : isPrefixList (str "SVAULT3:") (str "SVAULT:" ++ r) = false :=
  rfl

theorem not_sv2_of_sv (r : JStr) : isPrefixList (str "SVAULT2:") (str "SVAULT:" ++ r) = false :=
  rfl

theorem not_sv3_of_legacy (r : JStr) :
    isPrefixList (str "SVAULT3:") (str "U2FsdGVk" ++ r) = false :=
  rfl

theorem not_sv2_of_legacy (r : JStr) :
    isPrefixList (str "SVAULT2:") (str "U2FsdGVk" ++ r) = false :=
  rfl

theorem not_sv_of_legacy (r : JStr) :
    isPrefixList (str "SVAULT:") (str "U2FsdGVk" ++ r) = false :=
  rfl

theorem legacy_self (r : JStr) : isPrefixList (str "U2FsdGVk") (str "U2FsdGVk" ++ r) = true :=
  isPrefixList_append _ _

/-- A new-format ciphertext decrypts through the SVAULT3 branch. -/
theorem cjsDecryptData_SVAULT3 (A : AesCipher) (P : Pbkdf2Fn) (data key : JStr)
    (ivB : List Nat) (hivB : ∀ b ∈ ivB, b < 256)
    (henc : ∀ b ∈ A.enc (hexToBytes key) ivB data, b < 256)
    (hdec : A.dec (hexToBytes key) ivB (A.enc (hexToBytes key) ivB data) = data)
    (hdata : data ≠ []) :
    cjsDecryptData A P (cjsEncryptData A data key ivB) key = .ok data := by
  have hpre : isPrefixList (str "SVAULT3:") (cjsEncryptData A data key ivB) = true := by
    unfold cjsEncryptData
    rw [List.append_assoc, List.append_assoc]
    exact isPrefixList_append _ _
  have hsplit : splitColons (cjsEncryptData A data key ivB) =
      [str "SVAULT3", bytesToBase64 ivB, bytesToBase64 (A.enc (hexToBytes key) ivB data)] := by
    unfold cjsEncryptData
    simp only [show str "SVAULT3:" = str "SVAULT3" ++ ([':'] : JStr) from rfl,
      show str ":" = ([':'] : JStr) from rfl, List.append_assoc, List.cons_append,
      List.singleton_append, List.nil_append]
    rw [splitColons_append _ (by decide), splitColons_append _ (bytesToBase64_no_colon ivB),
      splitColons_no_colon (bytesToBase64_no_colon _)]
  unfold cjsDecryptData
  simp only [hpre, hsplit]
  simp [cjsB64_bytesToBase64 hivB, cjsB64_bytesToBase64 henc, hdec, hdata]

/-- An SVAULT2-format ciphertext (as the historical writer produced it,
reconstructed from the decrypt branch: tag, base64 salt, base64 IV,
base64 ciphertext under the per-file PBKDF2 key) still decrypts through
the current codec. -/
theorem cjsDecryptData_SVAULT2 (A : AesCipher) (P : Pbkdf2Fn) (data key : JStr)
    (ivB saltB : List Nat) (hivB : ∀ b ∈ ivB, b < 256) (hsaltB : ∀ b ∈ saltB, b < 256)
    (henc : ∀ b ∈ A.enc (P key saltB LEGACY_ENCRYPTION_ITERATIONS) ivB data, b < 256)
    (hdec : A.dec (P key saltB LEGACY_ENCRYPTION_ITERATIONS) ivB
      (A.enc (P key saltB LEGACY_ENCRYPTION_ITERATIONS) ivB data) = data)
    (hdata : data ≠ []) :
    cjsDecryptData A P (str "SVAULT2:" ++ bytesToBase64 saltB ++ str ":" ++ bytesToBase64 ivB
      ++ str ":" ++ bytesToBase64 (A.enc (P key saltB LEGACY_ENCRYPTION_ITERATIONS) ivB data))
      key = .ok data := by
  have hassoc : str "SVAULT2:" ++ bytesToBase64 saltB ++ str ":" ++ bytesToBase64 ivB
      ++ str ":" ++ bytesToBase64 (A.enc (P key saltB LEGACY_ENCRYPTION_ITERATIONS) ivB data) =
      str "SVAULT2:" ++ (bytesToBase64 saltB ++ str ":" ++ bytesToBase64 ivB
      ++ str ":" ++ bytesToBase64 (A.enc (P key saltB LEGACY_ENCRYPTION_ITERATIONS) ivB data)) := by
    simp [List.append_assoc]
  have hsplit : splitColons (str "SVAULT2:" ++ bytesToBase64 saltB ++ str ":" ++ bytesToBase64 ivB
      ++ str ":" ++ bytesToBase64 (A.enc (P key saltB LEGACY_ENCRYPTION_ITERATIONS) ivB data)) =
      [str "SVAULT2", bytesToBase64 saltB, bytesToBase64 ivB,
        bytesToBase64 (A.enc (P key saltB LEGACY_ENCRYPTION_ITERATIONS) ivB data)] := by
    simp only [show str "SVAULT2:" = str "SVAULT2" ++ ([':'] : JStr) from rfl,
      show str ":" = ([':'] : JStr) from rfl, List.append_assoc, List.cons_append,
      List.singleton_append, List.nil_append]
    rw [splitColons_append _ (by decide), splitColons_append _ (bytesToBase64_no_colon saltB),
      splitColons_append _ (bytesToBase64_no_colon ivB),
      splitColons_no_colon (bytesToBase64_no_colon _)]
  unfold cjsDecryptData
  rw [hassoc]
  simp only [not_sv3_of_sv2, Bool.false_eq_true, if_false, isPrefixList_append, if_true]
  rw [hassoc.symm, hsplit]
  simp [cjsB64_bytesToBase64 hsaltB, cjsB64_bytesToBase64 hivB, cjsB64_bytesToBase64 henc,
    hdec, hdata]

/-- An SVAULT-format ciphertext still decrypts through the current
codec (same shape as SVAULT2 but with the old iteration count). -/
theorem cjsDecryptData_SVAULT (A : AesCipher) (P : Pbkdf2Fn) (data key : JStr)
    (ivB saltB : List Nat) (hivB : ∀ b ∈ ivB, b < 256) (hsaltB : ∀ b ∈ saltB, b < 256)
    (henc : ∀ b ∈ A.enc (P key saltB OLD_ENCRYPTION_ITERATIONS) ivB data, b < 256)
    (hdec : A.dec (P key saltB OLD_ENCRYPTION_ITERATIONS) ivB
      (A.enc (P key saltB OLD_ENCRYPTION_ITERATIONS) ivB data) = data)
    (hdata : data ≠ []) :
    cjsDecryptData A P (str "SVAULT:" ++ bytesToBase64 saltB ++ str ":" ++ bytesToBase64 ivB
      ++ str ":" ++ bytesToBase64 (A.enc (P key saltB OLD_ENCRYPTION_ITERATIONS) ivB data))
      key = .ok data := by
  have hassoc : str "SVAULT:" ++ bytesToBase64 saltB ++ str ":" ++ bytesToBase64 ivB
      ++ str ":" ++ bytesToBase64 (A.enc (P key saltB OLD_ENCRYPTION_ITERATIONS) ivB data) =
      str "SVAULT:" ++ (bytesToBase64 saltB ++ str ":" ++ bytesToBase64 ivB
      ++ str ":" ++ bytesToBase64 (A.enc (P key saltB OLD_ENCRYPTION_ITERATIONS) ivB data)) := by
    simp [List.append_assoc]
  have hsplit : splitColons (str "SVAULT:" ++ bytesToBase64 saltB ++ str ":" ++ bytesToBase64 ivB
      ++ str ":" ++ bytesToBase64 (A.enc (P key saltB OLD_ENCRYPTION_ITERATIONS) ivB data)) =
      [str "SVAULT", bytesToBase64 saltB, bytesToBase64 ivB,
        bytesToBase64 (A.enc (P key saltB OLD_ENCRYPTION_ITERATIONS) ivB data)] := by
    simp only [show str "SVAULT:" = str "SVAULT" ++ ([':'] : JStr) from rfl,
      show str ":" = ([':'] : JStr) from rfl, List.append_assoc, List.cons_append,
      List.singleton_append, List.nil_append]
    rw [splitColons_append _ (by decide), splitColons_append _ (bytesToBase64_no_colon saltB),
      splitColons_append _ (bytesToBase64_no_colon ivB),
      splitColons_no_colon (bytesToBase64_no_colon _)]
  unfold cjsDecryptData
  rw [hassoc]
  simp only [not_sv3_of_sv, not_sv2_of_sv, Bool.false_eq_true, if_false,
    isPrefixList_append, if_true]
  rw [hassoc.symm, hsplit]
  simp [cjsB64_bytesToBase64 hsaltB, cjsB64_bytesToBase64 hivB, cjsB64_bytesToBase64 henc,
    hdec, hdata]

/-- A legacy crypto-js (`U2FsdGVk…`) ciphertext dispatches to the legacy
decoder. -/
theorem cjsDecryptData_legacy (A : AesCipher) (P : Pbkdf2Fn) (key r : JStr)
    (hleg : A.legacyDec (str "U2FsdGVk" ++ r) key ≠ []) :
    cjsDecryptData A P (str "U2FsdGVk" ++ r) key =
      .ok (A.legacyDec (str "U2FsdGVk" ++ r) key) := by
  unfold cjsDecryptData
  simp only [not_sv3_of_legacy, not_sv2_of_legacy, not_sv_of_legacy, Bool.false_eq_true,
    if_false, legacy_self, if_true, if_neg hleg]

/-- Counterexample to C8 as stated: the fastCrypto `encryptFile` path —
cited by the claim and the one used for item ciphertext files — stores
`iv + ':' + ciphertext` with **no** format tag at all: its output does
not begin with `SVAULT3:` (nor any `SVAULT` tag). -/
theorem encryptFile_output_untagged :
    (encryptFileContent (str "QQ==") (str "00") (str "ff")).isSome = true ∧
    isPrefixList (str "SVAULT3:")
      ((encryptFileContent (str "QQ==") (str "00") (str "ff")).getD []) = false ∧
    isPrefixList (str "SVAULT")
      ((encryptFileContent (str "QQ==") (str "00") (str "ff")).getD []) = false := by
  decide

/-- **C8 (amended).** For the CryptoJS codec of `secureStorage`: every
new encryption emits the newest tag `SVAULT3:` as a literal
colon-delimited prefix (tag, IV, ciphertext) and never an older tag, and
decryption dispatches on the tag so that well-formed strings under every
older tag (`SVAULT2`, `SVAULT`, legacy `U2FsdGVk`) still decrypt
correctly without migration.  (The fastCrypto `encryptFile` path writes
untagged `iv:ciphertext` — see the counterexample.) -/
theorem cjs_codec_versioning (A : AesCipher) (P : Pbkdf2Fn)
    (hdec : ∀ k iv p, A.dec k iv (A.enc k iv p) = p)
    (henc : ∀ k iv p, ∀ b ∈ A.enc k iv p, b < 256)
    (data key : JStr) (ivB saltB : List Nat)
    (hivB : ∀ b ∈ ivB, b < 256) (hsaltB : ∀ b ∈ saltB, b < 256)
    (hdata : data ≠ []) (r : JStr)
    (hleg : A.legacyDec (str "U2FsdGVk" ++ r) key ≠ []) :
    isPrefixList (str "SVAULT3:") (cjsEncryptData A data key ivB) = true ∧
    isPrefixList (str "SVAULT2:") (cjsEncryptData A data key ivB) = false ∧
    isPrefixList (str "SVAULT:") (cjsEncryptData A data key ivB) = false ∧
    isPrefixList (str "U2FsdGVk") (cjsEncryptData A data key ivB) = false ∧
    cjsDecryptData A P (cjsEncryptData A data key ivB) key = .ok data ∧
    cjsDecryptData A P (str "SVAULT2:" ++ bytesToBase64 saltB ++ str ":" ++ bytesToBase64 ivB
      ++ str ":" ++ bytesToBase64 (A.enc (P key saltB LEGACY_ENCRYPTION_ITERATIONS) ivB data))
      key = .ok data ∧
    cjsDecryptData A P (str "SVAULT:" ++ bytesToBase64 saltB ++ str ":" ++ bytesToBase64 ivB
      ++ str ":" ++ bytesToBase64 (A.enc (P key saltB OLD_ENCRYPTION_ITERATIONS) ivB data))
      key = .ok data ∧
    cjsDecryptData A P (str "U2FsdGVk" ++ r) key =
      .ok (A.legacyDec (str "U2FsdGVk" ++ r) key) := by
  have hform : cjsEncryptData A data key ivB =
      str "SVAULT3:" ++ (bytesToBase64 ivB ++ (str ":" ++
        bytesToBase64 (A.enc (hexToBytes key) ivB data))) := by
    unfold cjsEncryptData
    simp [List.append_assoc]
  refine ⟨?_, ?_, ?_, ?_, ?_, ?_, ?_, ?_⟩
  · unfold cjsEncryptData
    rw [List.append_assoc, List.append_assoc]
    exact isPrefixList_append _ _
  · rw [hform]; exact not_sv2_of_sv3 _
  · rw [hform]; exact not_sv_of_sv3 _
  · rw [hform]; exact not_legacy_of_sv3 _
  · exact cjsDecryptData_SVAULT3 A P data key ivB hivB (henc _ _ _) (hdec _ _ _) hdata
  · exact cjsDecryptData_SVAULT2 A P data key ivB saltB hivB hsaltB (henc _ _ _)
      (hdec _ _ _) hdata
  · exact cjsDecryptData_SVAULT A P data key ivB saltB hivB hsaltB (henc _ _ _)
      (hdec _ _ _) hdata
  · exact cjsDecryptData_legacy A P key r hleg

theorem witnessDecBytes_witnessEncBytes : ∀ p, witnessDecBytes (witnessEncBytes p) = p
  | [] => rfl
  | c :: rest => by
    simp only [witnessEncBytes, witnessDecBytes, witnessDecBytes_witnessEncBytes rest]
    congr 1
    have h32 : c.toNat < 4294967296 := by
      have := UInt32.toNat_lt c.val
      norm_num at this
      exact this
    have h : c.toNat % 256 + c.toNat / 256 % 256 * 256 + c.toNat / 65536 % 256 * 65536 +
        c.toNat / 16777216 % 256 * 16777216 = c.toNat := by omega
    rw [h, Char.ofNat_toNat]

theorem witnessEncBytes_lt : ∀ p, ∀ b ∈ witnessEncBytes p, b < 256
  | [] => by simp [witnessEncBytes]
  | c :: rest => by
    intro b hb
    simp only [witnessEncBytes, List.mem_cons] at hb
    rcases hb with rfl | rfl | rfl | rfl | hb
    · omega
    · omega
    · omega
    · omega
    · exact witnessEncBytes_lt rest b hb

/-- Witness for the amended C8 at the concrete cipher, data `"hi"`,
key `"aa"`, IV bytes `[1]`, salt bytes `[2]`. -/
theorem cjs_codec_versioning_witness :
    isPrefixList (str "SVAULT3:") (cjsEncryptData witnessAes (str "hi") (str "aa") [1]) = true ∧
    isPrefixList (str "SVAULT2:") (cjsEncryptData witnessAes (str "hi") (str "aa") [1]) = false ∧
    isPrefixList (str "SVAULT:") (cjsEncryptData witnessAes (str "hi") (str "aa") [1]) = false ∧
    isPrefixList (str "U2FsdGVk") (cjsEncryptData witnessAes (str "hi") (str "aa") [1]) = false ∧
    cjsDecryptData witnessAes (fun _ _ _ => [7])
      (cjsEncryptData witnessAes (str "hi") (str "aa") [1]) (str "aa") = .ok (str "hi") ∧
    cjsDecryptData witnessAes (fun _ _ _ => [7])
      (str "SVAULT2:" ++ bytesToBase64 [2] ++ str ":" ++ bytesToBase64 [1] ++ str ":" ++
        bytesToBase64 (witnessAes.enc [7] [1] (str "hi"))) (str "aa") = .ok (str "hi") ∧
    cjsDecryptData witnessAes (fun _ _ _ => [7])
      (str "SVAULT:" ++ bytesToBase64 [2] ++ str ":" ++ bytesToBase64 [1] ++ str ":" ++
        bytesToBase64 (witnessAes.enc [7] [1] (str "hi"))) (str "aa") = .ok (str "hi") ∧
    cjsDecryptData witnessAes (fun _ _ _ => [7]) (str "U2FsdGVk" ++ str "xx") (str "aa") =
      .ok (witnessAes.legacyDec (str "U2FsdGVk" ++ str "xx") (str "aa")) :=
  cjs_codec_versioning witnessAes (fun _ _ _ => [7])
    (fun _ _ p => witnessDecBytes_witnessEncBytes p)
    (fun _ _ p => witnessEncBytes_lt p)
    (str "hi") (str "aa") [1] [2] (by decide) (by decide) (by decide) (str "xx") (by decide)

end SentraVault
